import Mathlib

/-!
Shallow embedding of the acquisition-and-cache core of `lotto_logic.py`
(fetch client `safe_get`, page parsers, the Illinois draw store with
`clean_il_data` / `load_il_data` / `save_il_data`, the backfill controller
`update_il_data_to_current`, and the history assemblers `fetch_draws_il`
and `fetch_draws`).

Modelling conventions:
* Parsed JSON values are modelled by `JVal`; object key order is Python
  dict insertion order, object keys are strings (as produced by
  `json.load`).
* Python truthiness of a JSON value is modelled by `truthy`.
* `isinstance(n, int)` holds in Python for both ints and bools, so the
  members retained by the cleaning pass are modelled by `PyInt`.
* Network traffic is modelled by oracles: for `safe_get` an oracle from
  the attempt number (1-based) to `Option (Resp α)`, where `none` models
  a `requests.RequestException` and the payload `α` stands for the data
  the caller's HTML parse extracts from the body (BeautifulSoup itself is
  not modelled; a response carries the already-selected fragments).
* `time.sleep` is modelled by counting the sleeps performed.
-/

namespace Lotto

/-- A parsed JSON value (result of `json.load`).  Keys of objects are
strings in insertion order, as in a Python dict. -/
inductive JVal where
  | jnull
  | jbool (b : Bool)
  | jint (n : Int)
  | jstr (s : String)
  | jarr (xs : List JVal)
  | jobj (kvs : List (String × JVal))

/-- Python truthiness of a JSON value: `None`, `False`, `0`, `""`, `[]`
and `{}` are falsy, everything else truthy. -/
def truthy : JVal → Bool
  | .jnull => false
  | .jbool b => b
  | .jint n => decide (n ≠ 0)
  | .jstr s => decide (s ≠ "")
  | .jarr xs => !xs.isEmpty
  | .jobj kvs => !kvs.isEmpty

/-- `(v or {}).items()`: a falsy value is replaced by `{}` whose items are
empty; a truthy dict yields its items; `.items()` on a truthy non-dict
raises `AttributeError` (modelled by `none`). -/
def pyDict (v : JVal) : Option (List (String × JVal)) :=
  if truthy v = false then some []
  else match v with
    | .jobj kvs => some kvs
    | _ => none

/-- A Python value passing `isinstance(n, int)`: an int or a bool. -/
inductive PyInt where
  | int (n : Int)
  | bool (b : Bool)
deriving DecidableEq, Repr

/-- Serialize a `PyInt` back to JSON (`json.dump`). -/
def pyIntToJVal : PyInt → JVal
  | .int n => .jint n
  | .bool b => .jbool b

/-- `isinstance(n, int)` filter on a JSON value. -/
def toPyInt : JVal → Option PyInt
  | .jint n => some (.int n)
  | .jbool b => some (.bool b)
  | _ => none

/-- `[n for n in numbers if isinstance(n, int)]`. -/
def filterInts (ns : List JVal) : List PyInt :=
  ns.filterMap toPyInt

/-- The in-memory draw store: game key -> date key -> slot -> digits,
each level a Python dict in insertion order. -/
abbrev SlotMap := List (String × List PyInt)
abbrev DateMap := List (String × SlotMap)
abbrev Store := List (String × DateMap)

/-! ### String comparison and key-sorted dictionaries

Python's `sorted` on the `(key, value)` pairs of a dict compares the
string keys lexicographically by code point; `strLeB` models that
comparison. -/

/-- Lexicographic `<=` on code-point lists (Python string comparison). -/
def strLeB : List Char → List Char → Bool
  | [], _ => true
  | _ :: _, [] => false
  | a :: as, b :: bs =>
    if a.toNat < b.toNat then true
    else if b.toNat < a.toNat then false
    else strLeB as bs

/-- Python `s <= t` on strings. -/
def strLe (a b : String) : Bool := strLeB a.data b.data

/-- Ordering of dict entries by key, as used by `sorted(d.items())`. -/
def KeyLE {β : Type} (a b : String × β) : Prop := strLe a.1 b.1 = true

instance {β : Type} : DecidableRel (@KeyLE β) :=
  fun a b => inferInstanceAs (Decidable (strLe a.1 b.1 = true))

instance {β : Type} : IsTotal (String × β) KeyLE := by
  constructor
  intro x y
  show strLeB x.1.data y.1.data = true ∨ strLeB y.1.data x.1.data = true
  generalize x.1.data = as
  generalize y.1.data = bs
  induction as generalizing bs with
  | nil => left; rfl
  | cons a as ih =>
    cases bs with
    | nil => right; rfl
    | cons b bs =>
      rcases Nat.lt_trichotomy a.toNat b.toNat with h | h | h
      · left; simp [strLeB, h]
      · rcases ih bs with h2 | h2
        · left; simp [strLeB, h, h2]
        · right; simp [strLeB, h.symm, h2]
      · right; simp [strLeB, h]

instance {β : Type} : IsTrans (String × β) KeyLE := by
  constructor
  intro x y z h1 h2
  show strLeB x.1.data z.1.data = true
  replace h1 : strLeB x.1.data y.1.data = true := h1
  replace h2 : strLeB y.1.data z.1.data = true := h2
  generalize x.1.data = as at h1 ⊢
  generalize y.1.data = bs at h1 h2
  generalize z.1.data = cs at h2 ⊢
  induction as generalizing bs cs with
  | nil => rfl
  | cons a as ih =>
    cases bs with
    | nil => simp [strLeB] at h1
    | cons b bs =>
      cases cs with
      | nil => simp [strLeB] at h2
      | cons c cs =>
        simp only [strLeB] at h1 h2 ⊢
        rcases Nat.lt_trichotomy a.toNat b.toNat with hab | hab | hab
        · rcases Nat.lt_trichotomy b.toNat c.toNat with hbc | hbc | hbc
          · rw [if_pos (Nat.lt_trans hab hbc)]
          · rw [if_pos (hbc ▸ hab)]
          · rw [if_neg (Nat.lt_asymm hbc), if_pos hbc] at h2
            simp at h2
        · rw [if_neg (by omega), if_neg (by omega)] at h1
          rcases Nat.lt_trichotomy b.toNat c.toNat with hbc | hbc | hbc
          · rw [if_pos (by omega)]
          · rw [if_neg (by omega), if_neg (by omega)] at h2
            rw [if_neg (by omega), if_neg (by omega)]
            exact ih _ h1 _ h2
          · rw [if_neg (Nat.lt_asymm hbc), if_pos hbc] at h2
            simp at h2
        · rw [if_neg (Nat.lt_asymm hab), if_pos hab] at h1
          simp at h1

/-- `dict(sorted(d.items()))`: the entries of a dict re-ordered by
ascending key. -/
def sortByKey {β : Type} (l : List (String × β)) : List (String × β) :=
  List.insertionSort KeyLE l

/-! ### `clean_il_data` -/

/-- `"3" in game` for the single character `"3"` is character
membership; the pick size used by `clean_il_data` is
`3 if "3" in game else 4`. -/
def pickOf (game : String) : Nat :=
  if game.data.any (fun c => c = '3') then 3 else 4

/-- The inner slot loop of `clean_il_data`: keep a slot only when its
value is a list whose `isinstance(int)` members number exactly `pick`;
the retained value is the filtered member list `nums`. -/
def cleanSlots (pick : Nat) (draws : List (String × JVal)) : SlotMap :=
  draws.filterMap fun kv =>
    match kv.2 with
    | .jarr ns =>
      let nums := filterInts ns
      if nums.length = pick then some (kv.1, nums) else none
    | _ => none

/-- The date loop of `clean_il_data`: a date whose value is not a dict is
skipped, and a date whose `valid_draws` comes out empty is dropped. -/
def cleanDates (pick : Nat) (dl : List (String × JVal)) : DateMap :=
  dl.filterMap fun kv =>
    match kv.2 with
    | .jobj draws =>
      let vd := cleanSlots pick draws
      if vd = [] then none else some (kv.1, vd)
    | _ => none

/-- One game of `clean_il_data`: `(dates or {}).items()` raises on a
truthy non-dict (the `.error ()` case); otherwise the cleaned dates are
re-sorted ascending by key. -/
def cleanGame (game : String) (dates : JVal) : Except Unit DateMap :=
  match pyDict dates with
  | none => .error ()
  | some dl => .ok (sortByKey (cleanDates (pickOf game) dl))

/-- The game loop of `clean_il_data`, in dict order. -/
def cleanGames : List (String × JVal) → Except Unit Store
  | [] => .ok []
  | kv :: rest => do
    let gm ← cleanGame kv.1 kv.2
    let st ← cleanGames rest
    pure ((kv.1, gm) :: st)

/-- `clean_il_data(data)`.  `(data or {}).items()` raises on a truthy
non-dict top-level value. -/
def clean_il_data (data : JVal) : Except Unit Store :=
  match pyDict data with
  | none => .error ()
  | some games => cleanGames games

/-! ### Persistence: `load_il_data` / `save_il_data` -/

/-- Serialize a slot map as `json.dump` writes it. -/
def slotsToJVal (sm : SlotMap) : JVal :=
  .jobj (sm.map fun kv => (kv.1, .jarr (kv.2.map pyIntToJVal)))

/-- Serialize a game's date map. -/
def datesToJVal (gm : DateMap) : JVal :=
  .jobj (gm.map fun kv => (kv.1, slotsToJVal kv.2))

/-- Serialize a whole store. -/
def storeToJVal (st : Store) : JVal :=
  .jobj (st.map fun kv => (kv.1, datesToJVal kv.2))

/-- `clean_il_data` applied to the serialization of an in-memory `Store`
never raises; `cleanStore` is its value (proved as `clean_storeToJVal`):
keep the slots of matching length, drop emptied dates, sort date keys. -/
def cleanStore (st : Store) : Store :=
  st.map fun kv =>
    (kv.1, sortByKey (kv.2.filterMap fun dv =>
      let vd := dv.2.filter fun sv => sv.2.length == pickOf kv.1
      if vd = [] then none else some (dv.1, vd)))

/-- `save_il_data(data)`: clean, then rewrite the whole JSON file; the
result is the persisted file content. -/
def save_il_data (data : Store) : JVal :=
  storeToJVal (cleanStore data)

/-- The state of the cache file as seen by `load_il_data`. -/
inductive FileState where
  | absent
  | corruptJson
  | content (v : JVal)

/-- `load_il_data()`: an absent file or invalid JSON is replaced by `{}`;
the parsed value is then cleaned (the cleaning itself is *outside* the
`try`, so a cleaning error propagates). -/
def load_il_data : FileState → Except Unit Store
  | .absent => clean_il_data (.jobj [])
  | .corruptJson => clean_il_data (.jobj [])
  | .content v => clean_il_data v

/-! ### The fetch client: `safe_get` -/

/-- An HTTP response: its status code and the payload the caller's
parser extracts from the body (the BeautifulSoup selection itself is not
modelled, so the payload stands for the selected fragments). -/
structure Resp (α : Type) where
  status : Nat
  payload : α

/-- The outcome of one `safe_get` call: the returned value (`none`
models Python's `None` after repeated transport errors), how many HTTP
attempts were made and how many `time.sleep(3)` pauses were taken. -/
structure FetchResult (α : Type) where
  result : Option (Resp α)
  attempts : Nat
  sleeps : Nat

/-- The attempt loop of `safe_get`.  `fuel` is the number of remaining
loop iterations (so the current attempt sleeps afterwards iff
`fuel > 1`, i.e. `attempt < max_retries`); `oracle i` is what attempt
number `i` produces, `none` being a `requests.RequestException`. -/
def safeGetAux (oracle : Nat → Option (Resp α)) :
    Nat → Nat → Option (Resp α) → Nat → Nat → FetchResult α
  | 0, _, last, att, sl => ⟨last, att, sl⟩
  | fuel + 1, attempt, last, att, sl =>
    match oracle attempt with
    | some r =>
      if r.status = 200 then ⟨some r, att + 1, sl⟩
      else safeGetAux oracle fuel (attempt + 1) (some r) (att + 1)
        (if fuel = 0 then sl else sl + 1)
    | none =>
      safeGetAux oracle fuel (attempt + 1) last (att + 1)
        (if fuel = 0 then sl else sl + 1)

/-- `safe_get(url, max_retries)`: up to `max_retries` attempts; a 200
response returns immediately; any other status (or a transport error) is
logged and retried after a fixed sleep if attempts remain; after the
loop the last-seen response (possibly `None`) is returned. -/
def safe_get (oracle : Nat → Option (Resp α)) (max_retries : Nat) : FetchResult α :=
  safeGetAux oracle max_retries 1 none 0 0

/-! ### The day-fragment parser: `fetch_il_draw` -/

/-- Python `str.strip()` (ASCII whitespace model): drop leading and
trailing whitespace. -/
def pyStrip (s : String) : String :=
  String.mk (((s.data.dropWhile Char.isWhitespace).reverse.dropWhile
    Char.isWhitespace).reverse)

/-- Python `str.isdigit()` on the ASCII fragment: nonempty and all
digits. -/
def isdigitStr (s : String) : Bool :=
  !s.data.isEmpty && s.data.all Char.isDigit

/-- `int(s)` on a digit string. -/
def strToNat (s : String) : Nat :=
  s.data.foldl (fun a c => a * 10 + (c.toNat - 48)) 0

/-- `fetch_il_draw(date, draw_type, pick)`: fetch the per-day page with
3 retries; `None` and non-200 (404 included) give `None`; otherwise the
stripped, all-digit ball texts are parsed and accepted only when their
count is exactly `pick`.  The oracle's payload is the list of texts of
the `li.ball` elements the page selector yields. -/
def fetch_il_draw (oracle : Nat → Option (Resp (List String))) (pick : Nat) :
    Option (List Nat) :=
  match (safe_get oracle 3).result with
  | none => none
  | some res =>
    if res.status = 404 then none
    else if res.status ≠ 200 then none
    else
      let numbers := res.payload.filterMap fun t =>
        if isdigitStr (pyStrip t) then some (strToNat (pyStrip t)) else none
      if numbers.length = pick then some numbers else none

/-! ### The backfill controller: `update_il_data_to_current`

The walked date window (the `MM-DD-YYYY` renderings of
`today - backfill_days .. today`) is passed in as a list, and the
network is abstracted by an oracle giving the result of
`fetch_il_draw(date, draw_type, pick)` for each missing cell. -/

/-- First-match dict lookup (`d[k]` / `k in d`). -/
def lookupVal {β : Type} : List (String × β) → String → Option β
  | [], _ => none
  | kv :: rest, k => if kv.1 = k then some kv.2 else lookupVal rest k

/-- Update the value of the first entry with key `k` (a Python dict has
a single such entry). -/
def modifyVal {β : Type} : List (String × β) → String → (β → β) → List (String × β)
  | [], _, _ => []
  | kv :: rest, k, f =>
    if kv.1 = k then (kv.1, f kv.2) :: rest else kv :: modifyVal rest k f

/-- `d.setdefault(k, {})`: append an empty entry iff the key is absent
(insertion at the end, as in a Python dict). -/
def setdefaultG (st : Store) (g : String) : Store :=
  if (lookupVal st g).isSome then st else st ++ [(g, [])]

/-- `data[g].setdefault(d, {})`. -/
def setdefaultD (st : Store) (g d : String) : Store :=
  modifyVal st g fun gm =>
    if (lookupVal gm d).isSome then gm else gm ++ [(d, [])]

/-- Read one `(game, date, slot)` cell. -/
def getCell (st : Store) (g d s : String) : Option (List PyInt) :=
  (lookupVal st g).bind fun gm => (lookupVal gm d).bind fun sm => lookupVal sm s

/-- `data[g][d][s] = numbers` for a slot key that is absent (the only
way the controller writes). -/
def setCell (st : Store) (g d s : String) (v : List PyInt) : Store :=
  modifyVal st g fun gm => modifyVal gm d fun sm => sm ++ [(s, v)]

/-- `"pick" + str(pick)` (`f"pick{pick}"`). -/
def gameKeyOf (pick : Nat) : String := "pick" ++ toString pick

/-- The result of `fetch_il_draw` for a given `(date, draw_type, pick)`,
as the controller's view of the network. -/
abbrev Oracle := String → String → Nat → Option (List Nat)

/-- Controller accumulator: the store being mutated, the number of
`fetch_il_draw` calls made, and the number of successful (truthy)
fetches. -/
structure Acc where
  st : Store
  calls : Nat
  succ : Nat

/-- One slot of the inner loop: skip a cell that is already present,
otherwise fetch; a truthy result (`if numbers:`) is written into the
store (and the store saved — only the final save decides the file, so
intermediate saves are not tracked separately). -/
def fillSlot (oracle : Oracle) (acc : Acc) (g d s : String) (pick : Nat) : Acc :=
  match getCell acc.st g d s with
  | some _ => acc
  | none =>
    match oracle d s pick with
    | some ns =>
      if ns.isEmpty then ⟨acc.st, acc.calls + 1, acc.succ⟩
      else ⟨setCell acc.st g d s (ns.map fun n => PyInt.int (Int.ofNat n)),
            acc.calls + 1, acc.succ + 1⟩
    | none => ⟨acc.st, acc.calls + 1, acc.succ⟩

/-- One pick size of the date loop: `setdefault` the game and date
containers, then fill the `midday` and `evening` slots in order. -/
def processPick (oracle : Oracle) (acc : Acc) (d : String) (pick : Nat) : Acc :=
  let g := gameKeyOf pick
  let acc1 : Acc := ⟨setdefaultD (setdefaultG acc.st g) g d, acc.calls, acc.succ⟩
  let acc2 := fillSlot oracle acc1 g d "midday" pick
  fillSlot oracle acc2 g d "evening" pick

/-- One date of the window: pick sizes 3 then 4. -/
def processDate (oracle : Oracle) (acc : Acc) (d : String) : Acc :=
  processPick oracle (processPick oracle acc d 3) d 4

/-- The value `update_il_data_to_current()` computes. -/
structure UpdateResult where
  data : Store
  fetchCalls : Nat
  successes : Nat
  persisted : Option JVal

/-- `update_il_data_to_current()`: load (and clean) the cache file; with
`backfill_days <= 0` return the loaded store at once (no fetch, no
write); otherwise walk the window in ascending date order filling
missing cells, then `save_il_data(data)` — the persisted file content is
the serialization of the cleaned final store. -/
def update_il_data_to_current (content : FileState) (backfill_days : Int)
    (window : List String) (oracle : Oracle) : Except Unit UpdateResult :=
  match load_il_data content with
  | .error e => .error e
  | .ok data =>
    if backfill_days ≤ 0 then .ok ⟨data, 0, 0, none⟩
    else
      let acc := window.foldl (processDate oracle) ⟨data, 0, 0⟩
      .ok ⟨acc.st, acc.calls, acc.succ, some (save_il_data acc.st)⟩

/-! ### History assemblers: `fetch_draws_il` and `fetch_draws`

A calendar date is carried as `(year, month, day)` and, inside a record,
as the order-preserving encoding `year * 10000 + month * 100 + day`, so
`dt`-comparisons mirror `datetime` comparisons. -/

/-- `(year, month, day)`. -/
abbrev DateYMD := Nat × Nat × Nat

/-- Order-preserving encoding of a calendar date, standing for the
`datetime` value. -/
def encodeDate (t : DateYMD) : Nat := t.1 * 10000 + t.2.1 * 100 + t.2.2

/-- `s.toNat` on an all-digit string of length at most `w` (the field
width a `strptime` directive consumes), `none` otherwise. -/
def digitsToNat (w : Nat) (s : String) : Option Nat :=
  if isdigitStr s && s.data.length ≤ w then some (strToNat s) else none

/-- `datetime.strptime(s, "%m-%d-%Y")`, at the granularity the claims
need: split on `-`, a 1–2 digit month in 1..12, a 1–2 digit day in
1..31, a 1–4 digit year; anything else raises (`none`). -/
def parseMDY (s : String) : Option DateYMD :=
  match (s.data.splitOn '-').map (fun cs => String.mk cs) with
  | [ms, ds, ys] =>
    match digitsToNat 2 ms, digitsToNat 2 ds, digitsToNat 4 ys with
    | some m, some d, some y =>
      if 1 ≤ m ∧ m ≤ 12 ∧ 1 ≤ d ∧ d ≤ 31 then some (y, m, d) else none
    | _, _, _ => none
  | _ => none

/-- One assembled draw record.  The derived `date_str` display label is
not modelled (it is never persisted or compared). -/
structure DrawRec where
  dt : Nat
  slot : String
  numbers : List PyInt
deriving DecidableEq, Repr

/-- Comparison of records by draw date, as used by `out.sort(key=...)`
and `sorted(..., key=...)`. -/
def DtLE (a b : DrawRec) : Prop := a.dt ≤ b.dt

instance : DecidableRel DtLE := fun a b => inferInstanceAs (Decidable (a.dt ≤ b.dt))

instance : IsTotal DrawRec DtLE := ⟨fun a b => Nat.le_total a.dt b.dt⟩

instance : IsTrans DrawRec DtLE := ⟨fun _ _ _ h1 h2 => Nat.le_trans h1 h2⟩

/-- The loop of `fetch_draws_il` over `sorted(data[game_key].items())`:
skip dates without the requested slot, parse the `MM-DD-YYYY` key with
`strptime` (raising on a malformed key), skip slot values of the wrong
length, and append a record otherwise. -/
def ilRecs (draw_type : String) (pick : Nat) :
    DateMap → Except Unit (List DrawRec)
  | [] => .ok []
  | (dstr, sm) :: rest =>
    match lookupVal sm draw_type with
    | none => ilRecs draw_type pick rest
    | some numbers =>
      match parseMDY dstr with
      | none => .error ()
      | some dt =>
        if numbers.length ≠ pick then ilRecs draw_type pick rest
        else do
          let out ← ilRecs draw_type pick rest
          pure (⟨encodeDate dt, draw_type, numbers⟩ :: out)

/-- `fetch_draws_il(draw_type, pick)`: run the backfill controller, then
read the resulting store's game in ascending lexical key order. -/
def fetch_draws_il (content : FileState) (backfill_days : Int)
    (window : List String) (oracle : Oracle) (draw_type : String) (pick : Nat) :
    Except Unit (List DrawRec) := do
  let r ← update_il_data_to_current content backfill_days window oracle
  match lookupVal r.data (gameKeyOf pick) with
  | none => pure []
  | some gm => ilRecs draw_type pick (sortByKey gm)

/-- The twelve month names `%B` accepts (matched case-insensitively). -/
def monthNames : List String :=
  ["january", "february", "march", "april", "may", "june",
   "july", "august", "september", "october", "november", "december"]

/-- ASCII lower-casing, for `%B`'s case-insensitive month match. -/
def lowerStr (s : String) : String := String.mk (s.data.map Char.toLower)

/-- Month-name lookup of `strptime`'s `%B` directive. -/
def monthNum (m : String) : Option Nat :=
  match monthNames.findIdx? (fun x => x = lowerStr m) with
  | some i => some (i + 1)
  | none => none

/-- `parse_base_date(month, day, year)`: `strptime(f"{month} {day},
{year}", "%B %d, %Y")`, at the granularity the claims need — a valid
month name, a 1–2 digit day in 1..31, a 1–4 digit year; anything else
raises (`none`). -/
def parse_base_date (month day year : String) : Option DateYMD :=
  match monthNum month, digitsToNat 2 day, digitsToNat 4 year with
  | some m, some d, some y =>
    if 1 ≤ d ∧ d ≤ 31 then some (y, m, d) else none
  | _, _, _ => none

/-- `parts[2].rstrip(",")`. -/
def rstripComma (s : String) : String :=
  String.mk ((s.data.reverse.dropWhile (fun c => c = ',')).reverse)

/-- A `<tr>` of the year table: the cells (`<td>`s), each given by its
whitespace-split text tokens (`.text.strip().split()`, and for the
numbers cell `.get_text(separator=" ").strip().split()`). -/
abbrev Row := List (List String)

/-- One row of the year-table parse in `fetch_draws`: rows with fewer
than 2 cells or fewer than 4 date tokens are skipped; the date is parsed
from tokens 1–3 (raising on an unparsable date); the numeric tokens of
the second cell are truncated to `pick` digits, and rows with fewer than
`pick` numeric tokens are skipped. -/
def parseRow (slot : String) (pick : Nat) (row : Row) :
    Except Unit (Option DrawRec) :=
  match row with
  | c0 :: c1 :: _ =>
    match c0 with
    | _ :: month :: day :: year :: _ =>
      match parse_base_date month (rstripComma day) year with
      | none => .error ()
      | some dt =>
        let digits := c1.filterMap fun t =>
          if isdigitStr t then some (strToNat t) else none
        if digits.length < pick then .ok none
        else .ok (some ⟨encodeDate dt, slot,
          (digits.take pick).map fun n => PyInt.int (Int.ofNat n)⟩)
    | _ => .ok none
  | _ => .ok none

/-- The row loop of `fetch_draws` over one year's table. -/
def rowsRecs (slot : String) (pick : Nat) : List Row → Except Unit (List DrawRec)
  | [] => .ok []
  | row :: rest => do
    let r ← parseRow slot pick row
    let out ← rowsRecs slot pick rest
    pure (match r with | some rec => rec :: out | none => out)

/-- One year of `fetch_draws`: fetch the year page with 3 retries and
skip the year when no 200 response was obtained; otherwise parse its
rows.  The oracle maps an attempt number to the response for that year's
URL, the payload being the `<tr>` rows of the page. -/
def yearRecs (oracle : Nat → Nat → Option (Resp (List Row))) (slot : String)
    (pick : Nat) (yr : Nat) : Except Unit (List DrawRec) :=
  match (safe_get (oracle yr) 3).result with
  | none => .ok []
  | some resp =>
    if resp.status = 200 then rowsRecs slot pick resp.payload else .ok []

/-- The year loop of `fetch_draws`, accumulating records in year order. -/
def collectYears (oracle : Nat → Nat → Option (Resp (List Row))) (slot : String)
    (pick : Nat) : List Nat → Except Unit (List DrawRec)
  | [] => .ok []
  | yr :: yrs => do
    let a ← yearRecs oracle slot pick yr
    let rest ← collectYears oracle slot pick yrs
    pure (a ++ rest)

/-- The year-fetched branch of `fetch_draws(state, draw_type, pick)`
(the `state == "Chicago"` branch dispatches to `fetch_draws_il`): walk
the year range, then `out.sort(key=lambda r: r["dt"])`. -/
def fetch_draws_year (years : List Nat)
    (oracle : Nat → Nat → Option (Resp (List Row))) (slot : String) (pick : Nat) :
    Except Unit (List DrawRec) :=
  (collectYears oracle slot pick years).map (List.insertionSort DtLE)

/-! ### Predicates used by the verification theorems -/

/-- The pick-size rule as the specification words it: 4 if the game
key's textual form contains "4", else 3.  Stated only to compare with
the code's rule `pickOf` (which tests for "3" instead). -/
def specPickSize (game : String) : Nat :=
  if game.data.any (fun c => c = '4') then 4 else 3

/-- What the cleaning pass guarantees for one input game entry
`(g, dval)`: its dates value parses as a dict `dl`, a cleaned game `gm`
for it is present with ascending date keys and no empty date, and a
value `v` is retained under `(date, slot)` exactly when the stored slot
holds a list whose `isinstance(int)` members are `v` and number exactly
`pickOf g`. -/
def C3GameSpec (g : String) (dval : JVal) (st : Store) : Prop :=
  ∃ dl gm, pyDict dval = some dl ∧ (g, gm) ∈ st ∧ List.Sorted KeyLE gm ∧
    (∀ d sm, (d, sm) ∈ gm → sm ≠ []) ∧
    ∀ d s v, (∃ sm, (d, sm) ∈ gm ∧ (s, v) ∈ sm) ↔
      ∃ ns, (∃ draws, (d, JVal.jobj draws) ∈ dl ∧ (s, JVal.jarr ns) ∈ draws) ∧
        v = filterInts ns ∧ v.length = pickOf g

/-- A store in which every cell of a one-day window is already filled
(used to exercise the idempotence theorem on a concrete input). -/
def exWindowStore : Store :=
  [("pick3", [("06-01-2024",
      [("midday", [.int 1, .int 2, .int 3]),
       ("evening", [.int 4, .int 5, .int 6])])]),
   ("pick4", [("06-01-2024",
      [("midday", [.int 1, .int 2, .int 3, .int 4]),
       ("evening", [.int 5, .int 6, .int 7, .int 8])])])]

/-- `(game, date, slot) in store`, the controller's skip test. -/
def cellFilled (st : Store) (g d s : String) : Bool :=
  (getCell st g d s).isSome

/-- Every cell of the backfill window is already present in the store:
both games, every window date, both slots. -/
def AllFilled (st : Store) (window : List String) : Prop :=
  ∀ d ∈ window, ∀ p ∈ [3, 4], ∀ s ∈ ["midday", "evening"],
    cellFilled st (gameKeyOf p) d s = true

instance (st : Store) (window : List String) : Decidable (AllFilled st window) := by
  unfold AllFilled
  infer_instance

/-- The invariant every store produced by `clean_il_data` satisfies:
per game the date keys are sorted ascending, no date has an empty slot
map, and every retained digit list has the pick size implied by its game
key. -/
def CleanInv (st : Store) : Prop :=
  ∀ g gm, (g, gm) ∈ st → List.Sorted KeyLE gm ∧
    ∀ d sm, (d, sm) ∈ gm → sm ≠ [] ∧ ∀ s v, (s, v) ∈ sm → v.length = pickOf g

/-- The record shape both parsers produce: `pick` digits, all of them
non-negative machine integers obtained from digit tokens. -/
def RecOK (pick : Nat) (r : DrawRec) : Prop :=
  r.numbers.length = pick ∧ ∀ p ∈ r.numbers, ∃ n : Nat, p = PyInt.int (n : Int)

/-! ### Lemmas about the cleaning pass -/

theorem pyDict_jobj (l : List (String × JVal)) : pyDict (.jobj l) = some l := by
  cases l <;> simp [pyDict, truthy, List.isEmpty]

theorem toPyInt_pyIntToJVal (p : PyInt) : toPyInt (pyIntToJVal p) = some p := by
  cases p <;> rfl

theorem filterInts_map_pyIntToJVal (v : List PyInt) :
    filterInts (v.map pyIntToJVal) = v := by
  induction v with
  | nil => rfl
  | cons p ps ih =>
    simp only [List.map_cons, filterInts, List.filterMap_cons, toPyInt_pyIntToJVal]
    simpa [filterInts] using ih

theorem cleanSlots_serial (pick : Nat) (sm : SlotMap) :
    cleanSlots pick (sm.map fun kv => (kv.1, .jarr (kv.2.map pyIntToJVal))) =
      sm.filter fun sv => sv.2.length == pick := by
  induction sm with
  | nil => rfl
  | cons kv rest ih =>
    simp only [List.map_cons, cleanSlots, List.filterMap_cons,
      filterInts_map_pyIntToJVal, List.filter_cons]
    by_cases h : kv.2.length = pick
    · simpa [h, cleanSlots] using ih
    · simpa [h, cleanSlots, Nat.ne_of_lt, beq_iff_eq] using ih

theorem cleanDates_serial (pick : Nat) (gm : DateMap) :
    cleanDates pick (gm.map fun kv => (kv.1, slotsToJVal kv.2)) =
      gm.filterMap fun dv =>
        let vd := dv.2.filter fun sv => sv.2.length == pick
        if vd = [] then none else some (dv.1, vd) := by
  induction gm with
  | nil => rfl
  | cons kv rest ih =>
    simp only [List.map_cons, cleanDates, List.filterMap_cons, slotsToJVal,
      cleanSlots_serial]
    by_cases h : (kv.2.filter fun sv => sv.2.length == pick) = []
    · simpa [h, cleanDates] using ih
    · simpa [h, cleanDates] using ih

theorem cleanGame_serial (g : String) (gm : DateMap) :
    cleanGame g (datesToJVal gm) =
      .ok (sortByKey (gm.filterMap fun dv =>
        let vd := dv.2.filter fun sv => sv.2.length == pickOf g
        if vd = [] then none else some (dv.1, vd))) := by
  simp [cleanGame, datesToJVal, pyDict_jobj, cleanDates_serial]

theorem cleanGames_serial (st : Store) :
    cleanGames (st.map fun kv => (kv.1, datesToJVal kv.2)) = .ok (cleanStore st) := by
  induction st with
  | nil => rfl
  | cons kv rest ih =>
    simp only [List.map_cons, cleanGames, cleanGame_serial, ih, cleanStore,
      Bind.bind, Except.bind]
    rfl

theorem clean_storeToJVal (st : Store) :
    clean_il_data (storeToJVal st) = .ok (cleanStore st) := by
  unfold clean_il_data storeToJVal
  rw [pyDict_jobj]
  exact cleanGames_serial st

/-- Membership characterization for the slot loop: a slot survives with
value `v` exactly when its stored value is a list whose
`isinstance(int)` members are `v` and number exactly `pick`. -/
theorem cleanSlots_mem (pick : Nat) (draws : List (String × JVal))
    (s : String) (v : List PyInt) :
    (s, v) ∈ cleanSlots pick draws ↔
      ∃ ns, (s, JVal.jarr ns) ∈ draws ∧ v = filterInts ns ∧ v.length = pick := by
  constructor
  · intro h
    rcases List.mem_filterMap.1 h with ⟨kv, hkv, hf⟩
    rcases kv with ⟨k, val⟩
    cases val with
    | jarr ns =>
      simp only [cleanSlots] at hf
      by_cases hl : (filterInts ns).length = pick
      · simp only [hl, if_pos] at hf
        obtain ⟨rfl, rfl⟩ := Prod.mk.injEq .. ▸ Option.some.injEq .. ▸ hf
        exact ⟨ns, by simpa using hkv, rfl, hl⟩
      · simp [hl] at hf
    | jnull => simp [cleanSlots] at hf
    | jbool b => simp [cleanSlots] at hf
    | jint n => simp [cleanSlots] at hf
    | jstr s2 => simp [cleanSlots] at hf
    | jobj kvs => simp [cleanSlots] at hf
  · rintro ⟨ns, hmem, rfl, hlen⟩
    exact List.mem_filterMap.2 ⟨(s, .jarr ns), hmem, by simp [cleanSlots, hlen]⟩

/-- Membership characterization for the date loop: a date survives with
slot map `sm` exactly when its stored value is a dict whose cleaned
slots are the nonempty `sm`. -/
theorem cleanDates_mem (pick : Nat) (dl : List (String × JVal))
    (d : String) (sm : SlotMap) :
    (d, sm) ∈ cleanDates pick dl ↔
      ∃ draws, (d, JVal.jobj draws) ∈ dl ∧ sm = cleanSlots pick draws ∧ sm ≠ [] := by
  constructor
  · intro h
    rcases List.mem_filterMap.1 h with ⟨kv, hkv, hf⟩
    rcases kv with ⟨k, val⟩
    cases val with
    | jobj draws =>
      simp only [cleanDates] at hf
      by_cases he : cleanSlots pick draws = []
      · simp [he] at hf
      · rw [if_neg he] at hf
        obtain ⟨rfl, rfl⟩ := Prod.mk.injEq .. ▸ Option.some.injEq .. ▸ hf
        exact ⟨draws, by simpa using hkv, rfl, he⟩
    | jnull => simp [cleanDates] at hf
    | jbool b => simp [cleanDates] at hf
    | jint n => simp [cleanDates] at hf
    | jstr s2 => simp [cleanDates] at hf
    | jarr ns => simp [cleanDates] at hf
  · rintro ⟨draws, hmem, rfl, hne⟩
    exact List.mem_filterMap.2 ⟨(d, .jobj draws), hmem, by simp [cleanDates, hne]⟩

theorem mem_sortByKey {β : Type} (l : List (String × β)) (a : String × β) :
    a ∈ sortByKey l ↔ a ∈ l :=
  List.mem_insertionSort KeyLE

theorem sorted_sortByKey {β : Type} (l : List (String × β)) :
    List.Sorted KeyLE (sortByKey l) :=
  List.sorted_insertionSort KeyLE l

theorem sortByKey_eq_of_sorted {β : Type} {l : List (String × β)}
    (h : List.Sorted KeyLE l) : sortByKey l = l :=
  List.Sorted.insertionSort_eq h

theorem cleanGames_mem_rev {games : List (String × JVal)} {st : Store}
    {g : String} {gm : DateMap} (h : cleanGames games = .ok st)
    (hm : (g, gm) ∈ st) :
    ∃ dval, (g, dval) ∈ games ∧ cleanGame g dval = .ok gm := by
  induction games generalizing st with
  | nil =>
    simp only [cleanGames] at h
    cases h
    simp at hm
  | cons kv rest ih =>
    simp only [cleanGames, Bind.bind, Except.bind] at h
    cases hg : cleanGame kv.1 kv.2 with
    | error e => rw [hg] at h; cases h
    | ok gm0 =>
      rw [hg] at h
      cases hr : cleanGames rest with
      | error e => rw [hr] at h; cases h
      | ok st2 =>
        rw [hr] at h
        cases h
        rcases List.mem_cons.1 hm with h1 | h1
        · obtain ⟨h2, h3⟩ := Prod.mk.injEq .. ▸ h1
          subst h2
          subst h3
          exact ⟨kv.2, List.mem_cons.2 (Or.inl rfl), hg⟩
        · rcases ih hr h1 with ⟨dval, hd1, hd2⟩
          exact ⟨dval, List.mem_cons_of_mem _ hd1, hd2⟩

theorem cleanGames_mem_fwd {games : List (String × JVal)} {st : Store}
    {g : String} {dval : JVal} (h : cleanGames games = .ok st)
    (hm : (g, dval) ∈ games) :
    ∃ gm, (g, gm) ∈ st ∧ cleanGame g dval = .ok gm := by
  induction games generalizing st with
  | nil => simp at hm
  | cons kv rest ih =>
    simp only [cleanGames, Bind.bind, Except.bind] at h
    cases hg : cleanGame kv.1 kv.2 with
    | error e => rw [hg] at h; cases h
    | ok gm0 =>
      rw [hg] at h
      cases hr : cleanGames rest with
      | error e => rw [hr] at h; cases h
      | ok st2 =>
        rw [hr] at h
        cases h
        rcases List.mem_cons.1 hm with h1 | h1
        · obtain ⟨h2, h3⟩ := Prod.mk.injEq .. ▸ h1
          subst h2
          subst h3
          exact ⟨gm0, List.mem_cons.2 (Or.inl rfl), hg⟩
        · rcases ih hr h1 with ⟨gm, hd1, hd2⟩
          exact ⟨gm, List.mem_cons_of_mem _ hd1, hd2⟩

theorem clean_inv {data : JVal} {st : Store}
    (h : clean_il_data data = .ok st) : CleanInv st := by
  intro g gm hm
  unfold clean_il_data at h
  cases hp : pyDict data with
  | none => rw [hp] at h; cases h
  | some games =>
    rw [hp] at h
    rcases cleanGames_mem_rev h hm with ⟨dval, _, hg⟩
    unfold cleanGame at hg
    cases hq : pyDict dval with
    | none => rw [hq] at hg; cases hg
    | some dl =>
      rw [hq] at hg
      cases hg
      refine ⟨sorted_sortByKey _, ?_⟩
      intro d sm hdm
      have hdm2 := (mem_sortByKey _ _).1 hdm
      rcases (cleanDates_mem _ _ _ _).1 hdm2 with ⟨draws, _, hsm, hne⟩
      refine ⟨hne, ?_⟩
      intro s v hsv
      rw [hsm] at hsv
      rcases (cleanSlots_mem _ _ _ _).1 hsv with ⟨ns, _, _, hlen⟩
      exact hlen

theorem filterMap_clean_self {g : String} {gm : DateMap}
    (h : ∀ d sm, (d, sm) ∈ gm → sm ≠ [] ∧ ∀ s v, (s, v) ∈ sm → v.length = pickOf g) :
    (gm.filterMap fun dv =>
      let vd := dv.2.filter fun sv => sv.2.length == pickOf g
      if vd = [] then none else some (dv.1, vd)) = gm := by
  induction gm with
  | nil => rfl
  | cons dv rest ih =>
    have hd := h dv.1 dv.2 (by simp)
    have hfil : dv.2.filter (fun sv => sv.2.length == pickOf g) = dv.2 :=
      List.filter_eq_self.mpr fun sv hsv => by
        simpa using hd.2 sv.1 sv.2 (by simpa using hsv)
    simp only [List.filterMap_cons, hfil, if_neg hd.1]
    rw [ih fun d sm hm => h d sm (List.mem_cons_of_mem _ hm)]

theorem cleanStore_eq_self {st : Store} (h : CleanInv st) : cleanStore st = st := by
  unfold cleanStore
  induction st with
  | nil => rfl
  | cons kv rest ih =>
    have hkv := h kv.1 kv.2 (by simp)
    simp only [List.map_cons]
    rw [filterMap_clean_self hkv.2, sortByKey_eq_of_sorted hkv.1,
      ih fun g gm hm => h g gm (List.mem_cons_of_mem _ hm)]

/-- Re-cleaning the serialization of an already-clean store is the
identity: the persisted artifact loads back to exactly the store that
was saved. -/
theorem clean_storeToJVal_of_inv {st : Store} (h : CleanInv st) :
    clean_il_data (storeToJVal st) = .ok st := by
  rw [clean_storeToJVal, cleanStore_eq_self h]

/-! ### Lemmas about the backfill walk over an already-filled window -/

theorem modifyVal_eq_self {β : Type} {st : List (String × β)} {g : String}
    {f : β → β} (h : ∀ gm, lookupVal st g = some gm → f gm = gm) :
    modifyVal st g f = st := by
  induction st with
  | nil => rfl
  | cons kv rest ih =>
    by_cases hk : kv.1 = g
    · have hf : f kv.2 = kv.2 := h kv.2 (by simp [lookupVal, hk])
      subst hk
      simp [modifyVal, hf]
    · simp only [modifyVal, if_neg hk]
      rw [ih fun gm hg => h gm (by simpa [lookupVal, hk] using hg)]

theorem getCell_some {st : Store} {g d s : String} {v : List PyInt}
    (h : getCell st g d s = some v) :
    ∃ gm sm, lookupVal st g = some gm ∧ lookupVal gm d = some sm ∧
      lookupVal sm s = some v := by
  unfold getCell at h
  cases hg : lookupVal st g with
  | none => rw [hg] at h; cases h
  | some gm =>
    rw [hg] at h
    replace h : (lookupVal gm d).bind (fun sm => lookupVal sm s) = some v := h
    cases hd : lookupVal gm d with
    | none => rw [hd] at h; cases h
    | some sm =>
      rw [hd] at h
      replace h : lookupVal sm s = some v := h
      exact ⟨gm, sm, rfl, hd, h⟩

theorem setdefaultG_filled {st : Store} {g : String}
    (h : (lookupVal st g).isSome) : setdefaultG st g = st := by
  unfold setdefaultG
  rw [if_pos h]

theorem setdefaultD_filled {st : Store} {g d : String} {gm : DateMap}
    (hg : lookupVal st g = some gm) (hd : (lookupVal gm d).isSome) :
    setdefaultD st g d = st := by
  unfold setdefaultD
  apply modifyVal_eq_self
  intro gm2 hg2
  rw [hg] at hg2
  cases hg2
  rw [if_pos hd]

theorem fillSlot_filled {oracle : Oracle} {acc : Acc} {g d s : String}
    {pick : Nat} (h : (getCell acc.st g d s).isSome) :
    fillSlot oracle acc g d s pick = acc := by
  unfold fillSlot
  cases hg : getCell acc.st g d s with
  | none => rw [hg] at h; cases h
  | some v => rfl

theorem processPick_filled {oracle : Oracle} {acc : Acc} {d : String}
    {pick : Nat}
    (h1 : cellFilled acc.st (gameKeyOf pick) d "midday" = true)
    (h2 : cellFilled acc.st (gameKeyOf pick) d "evening" = true) :
    processPick oracle acc d pick = acc := by
  rcases Option.isSome_iff_exists.1 h1 with ⟨v1, hv1⟩
  rcases getCell_some hv1 with ⟨gm, sm, hg, hd, _⟩
  have hst : setdefaultD (setdefaultG acc.st (gameKeyOf pick)) (gameKeyOf pick) d
      = acc.st := by
    rw [setdefaultG_filled (by rw [hg]; rfl), setdefaultD_filled hg (by rw [hd]; rfl)]
  show fillSlot oracle (fillSlot oracle ⟨_, _, _⟩ _ _ _ _) _ _ _ _ = acc
  rw [hst]
  have heta : (⟨acc.st, acc.calls, acc.succ⟩ : Acc) = acc := rfl
  rw [heta, fillSlot_filled h1, fillSlot_filled h2]

theorem processDate_filled {oracle : Oracle} {acc : Acc} {d : String}
    (h3m : cellFilled acc.st (gameKeyOf 3) d "midday" = true)
    (h3e : cellFilled acc.st (gameKeyOf 3) d "evening" = true)
    (h4m : cellFilled acc.st (gameKeyOf 4) d "midday" = true)
    (h4e : cellFilled acc.st (gameKeyOf 4) d "evening" = true) :
    processDate oracle acc d = acc := by
  unfold processDate
  rw [processPick_filled h3m h3e, processPick_filled h4m h4e]

theorem foldl_processDate_filled {oracle : Oracle} {data : Store}
    {window : List String} {calls succ : Nat} (h : AllFilled data window) :
    window.foldl (processDate oracle) ⟨data, calls, succ⟩ = ⟨data, calls, succ⟩ := by
  induction window with
  | nil => rfl
  | cons d rest ih =>
    have hd := h d (by simp)
    simp only [List.foldl_cons]
    rw [processDate_filled (hd 3 (by simp) "midday" (by simp))
      (hd 3 (by simp) "evening" (by simp)) (hd 4 (by simp) "midday" (by simp))
      (hd 4 (by simp) "evening" (by simp))]
    exact ih fun d2 hd2 => h d2 (List.mem_cons_of_mem _ hd2)

/-! ### Lemmas about the parsers -/

theorem safeGetAux_zero {α : Type} (oracle : Nat → Option (Resp α))
    (attempt : Nat) (last : Option (Resp α)) (att sl : Nat) :
    safeGetAux oracle 0 attempt last att sl = ⟨last, att, sl⟩ := rfl

theorem safeGetAux_step {α : Type} {oracle : Nat → Option (Resp α)}
    {attempt : Nat} {r : Resp α} (fuel : Nat) (last : Option (Resp α))
    (att sl : Nat) (ho : oracle attempt = some r) (hs : r.status ≠ 200) :
    safeGetAux oracle (fuel + 1) attempt last att sl =
      safeGetAux oracle fuel (attempt + 1) (some r) (att + 1)
        (if fuel = 0 then sl else sl + 1) := by
  simp [safeGetAux, ho, hs]

theorem safeGetAux_step_none {α : Type} {oracle : Nat → Option (Resp α)}
    {attempt : Nat} (fuel : Nat) (last : Option (Resp α)) (att sl : Nat)
    (ho : oracle attempt = none) :
    safeGetAux oracle (fuel + 1) attempt last att sl =
      safeGetAux oracle fuel (attempt + 1) last (att + 1)
        (if fuel = 0 then sl else sl + 1) := by
  simp [safeGetAux, ho]

/-- With three non-200 responses, `safe_get` makes exactly 3 attempts,
sleeps twice, and returns the attempt-3 response. -/
theorem safe_get_three_non200 {α : Type} {oracle : Nat → Option (Resp α)}
    (h : ∀ i, 1 ≤ i → i ≤ 3 → ∃ r, oracle i = some r ∧ r.status ≠ 200) :
    ∃ r3, oracle 3 = some r3 ∧ safe_get oracle 3 = ⟨some r3, 3, 2⟩ := by
  obtain ⟨r1, h1, s1⟩ := h 1 (by norm_num) (by norm_num)
  obtain ⟨r2, h2, s2⟩ := h 2 (by norm_num) (by norm_num)
  obtain ⟨r3, h3, s3⟩ := h 3 (by norm_num) (by norm_num)
  refine ⟨r3, h3, ?_⟩
  show safeGetAux oracle 3 1 none 0 0 = ⟨some r3, 3, 2⟩
  rw [show (3 : Nat) = 2 + 1 from rfl, safeGetAux_step 2 none 0 0 h1 s1]
  norm_num
  rw [show (2 : Nat) = 1 + 1 from rfl, safeGetAux_step 1 (some r1) 1 1 h2 s2]
  norm_num
  rw [show (1 : Nat) = 0 + 1 from rfl, safeGetAux_step 0 (some r2) 2 2 h3 s3]
  rfl

/-- With a transport error on every attempt, `safe_get` makes 3
attempts, sleeps twice, and returns `None`. -/
theorem safe_get_three_fail {α : Type} {oracle : Nat → Option (Resp α)}
    (h : ∀ i, oracle i = none) : safe_get oracle 3 = ⟨none, 3, 2⟩ := by
  show safeGetAux oracle 3 1 none 0 0 = ⟨none, 3, 2⟩
  rw [show (3 : Nat) = 2 + 1 from rfl, safeGetAux_step_none 2 none 0 0 (h 1)]
  norm_num
  rw [show (2 : Nat) = 1 + 1 from rfl, safeGetAux_step_none 1 none 1 1 (h 2)]
  norm_num
  rw [show (1 : Nat) = 0 + 1 from rfl, safeGetAux_step_none 0 none 2 2 (h 3)]
  rfl

theorem fetch_il_draw_some {oracle : Nat → Option (Resp (List String))}
    {pick : Nat} {ns : List Nat} (h : fetch_il_draw oracle pick = some ns) :
    ns.length = pick := by
  unfold fetch_il_draw at h
  split at h
  · cases h
  · split at h
    · cases h
    · split at h
      · cases h
      · dsimp only at h
        split at h
        · cases h
          assumption
        · cases h

theorem parseRow_recOK {slot : String} {pick : Nat} {row : Row} {rec : DrawRec}
    (h : parseRow slot pick row = .ok (some rec)) : RecOK pick rec := by
  unfold parseRow at h
  split at h
  case h_2 => simp at h
  case h_1 _ c0 c1 _ =>
  split at h
  case h_2 => simp at h
  case h_1 _ _ month day year _ =>
  split at h
  · cases h
  case h_2 dt hp =>
  dsimp only at h
  split at h
  case isTrue => simp at h
  case isFalse hl =>
  rw [Except.ok.injEq, Option.some.injEq] at h
  subst h
  constructor
  · simp [List.length_map, List.length_take, Nat.min_eq_left (Nat.le_of_not_lt hl)]
  · intro p hp2
    rcases List.mem_map.1 hp2 with ⟨n, _, hn⟩
    exact ⟨n, hn.symm⟩

theorem rowsRecs_recOK {slot : String} {pick : Nat} {rows : List Row}
    {out : List DrawRec} (h : rowsRecs slot pick rows = .ok out) :
    ∀ rec ∈ out, RecOK pick rec := by
  induction rows generalizing out with
  | nil =>
    simp only [rowsRecs] at h
    cases h
    intro rec hrec
    simp at hrec
  | cons row rest ih =>
    simp only [rowsRecs, Bind.bind, Except.bind] at h
    cases hr : parseRow slot pick row with
    | error e => rw [hr] at h; cases h
    | ok r =>
      rw [hr] at h
      cases ho : rowsRecs slot pick rest with
      | error e => rw [ho] at h; cases h
      | ok out2 =>
        rw [ho] at h
        cases h
        intro rec hrec
        cases r with
        | none => exact ih ho rec hrec
        | some r0 =>
          rcases List.mem_cons.1 hrec with h1 | h1
          · subst h1
            exact parseRow_recOK hr
          · exact ih ho rec h1

theorem yearRecs_recOK {oracle : Nat → Nat → Option (Resp (List Row))}
    {slot : String} {pick : Nat} {yr : Nat} {out : List DrawRec}
    (h : yearRecs oracle slot pick yr = .ok out) :
    ∀ rec ∈ out, RecOK pick rec := by
  unfold yearRecs at h
  split at h
  · cases h
    intro rec hrec
    simp at hrec
  · split at h
    · exact rowsRecs_recOK h
    · cases h
      intro rec hrec
      simp at hrec

theorem collectYears_recOK {oracle : Nat → Nat → Option (Resp (List Row))}
    {slot : String} {pick : Nat} {years : List Nat} {out : List DrawRec}
    (h : collectYears oracle slot pick years = .ok out) :
    ∀ rec ∈ out, RecOK pick rec := by
  induction years generalizing out with
  | nil =>
    simp only [collectYears] at h
    cases h
    intro rec hrec
    simp at hrec
  | cons yr yrs ih =>
    simp only [collectYears, Bind.bind, Except.bind] at h
    cases hy : yearRecs oracle slot pick yr with
    | error e => rw [hy] at h; cases h
    | ok a =>
      rw [hy] at h
      cases hc : collectYears oracle slot pick yrs with
      | error e => rw [hc] at h; cases h
      | ok rest =>
        rw [hc] at h
        cases h
        intro rec hrec
        rcases List.mem_append.1 hrec with h1 | h1
        · exact yearRecs_recOK hy rec h1
        · exact ih hc rec h1

theorem fetch_draws_year_ok {years : List Nat}
    {oracle : Nat → Nat → Option (Resp (List Row))} {slot : String}
    {pick : Nat} {l : List DrawRec}
    (h : fetch_draws_year years oracle slot pick = .ok l) :
    List.Sorted DtLE l ∧ ∀ rec ∈ l, RecOK pick rec := by
  unfold fetch_draws_year at h
  cases hc : collectYears oracle slot pick years with
  | error e => rw [hc] at h; cases h
  | ok out =>
    rw [hc] at h
    cases h
    refine ⟨List.sorted_insertionSort DtLE out, ?_⟩
    intro rec hrec
    exact collectYears_recOK hc rec ((List.mem_insertionSort DtLE).1 hrec)

/-- The loop of `fetch_draws_il` emits one record per surviving date
entry, in traversal order: its output is indexed by a sub-sequence of
the traversed date keys, each record's `dt` being the `strptime` parse
of its key. -/
theorem ilRecs_keyOrder {draw_type : String} {pick : Nat} :
    ∀ {gm : DateMap} {l : List DrawRec}, ilRecs draw_type pick gm = .ok l →
    ∃ ks : List String, ks.Sublist (gm.map Prod.fst) ∧ ks.length = l.length ∧
      ∀ i (hi : i < ks.length) (hi' : i < l.length),
        ∃ dt, parseMDY (ks.get ⟨i, hi⟩) = some dt ∧
          (l.get ⟨i, hi'⟩).dt = encodeDate dt := by
  intro gm
  induction gm with
  | nil =>
    intro l h
    simp only [ilRecs] at h
    cases h
    exact ⟨[], List.Sublist.refl _, rfl, fun i hi _ => absurd hi (by simp)⟩
  | cons kv rest ih =>
    intro l h
    obtain ⟨dstr, sm⟩ := kv
    simp only [ilRecs] at h
    split at h
    · rcases ih h with ⟨ks, hsub, hlen, hcorr⟩
      exact ⟨ks, hsub.cons _, hlen, hcorr⟩
    case h_2 numbers hlk =>
      split at h
      · cases h
      case h_2 dt hp =>
        split at h
        · rcases ih h with ⟨ks, hsub, hlen, hcorr⟩
          exact ⟨ks, hsub.cons _, hlen, hcorr⟩
        · simp only [Bind.bind, Except.bind] at h
          cases ho : ilRecs draw_type pick rest with
          | error e => rw [ho] at h; cases h
          | ok out =>
            rw [ho] at h
            replace h : Except.ok
                (DrawRec.mk (encodeDate dt) draw_type numbers :: out) = .ok l := h
            cases h
            rcases ih ho with ⟨ks, hsub, hlen, hcorr⟩
            refine ⟨dstr :: ks, hsub.cons₂ _, by simp [hlen], ?_⟩
            intro i hi hi'
            cases i with
            | zero => exact ⟨dt, hp, rfl⟩
            | succ j =>
              exact hcorr j (by simpa using hi) (by simpa using hi')

/-- `fetch_draws_il` returns its records in ascending lexicographic
order of the `MM-DD-YYYY` date keys they are read from: the output is
indexed by a lexicographically sorted key list, each record's `dt`
being the parse of its key (no chronological guarantee — see the
year-boundary counterexample). -/
theorem fetch_draws_il_key_sorted {content : FileState} {days : Int}
    {window : List String} {oracle : Oracle} {draw_type : String}
    {pick : Nat} {l : List DrawRec}
    (h : fetch_draws_il content days window oracle draw_type pick = .ok l) :
    ∃ ks : List String, List.Pairwise (fun a b => strLe a b = true) ks ∧
      ks.length = l.length ∧
      ∀ i (hi : i < ks.length) (hi' : i < l.length),
        ∃ dt, parseMDY (ks.get ⟨i, hi⟩) = some dt ∧
          (l.get ⟨i, hi'⟩).dt = encodeDate dt := by
  unfold fetch_draws_il at h
  simp only [Bind.bind, Except.bind] at h
  cases hu : update_il_data_to_current content days window oracle with
  | error e => rw [hu] at h; cases h
  | ok r =>
    rw [hu] at h
    replace h : (match lookupVal r.data (gameKeyOf pick) with
      | none => (pure [] : Except Unit (List DrawRec))
      | some gm => ilRecs draw_type pick (sortByKey gm)) = .ok l := h
    cases hg : lookupVal r.data (gameKeyOf pick) with
    | none =>
      rw [hg] at h
      replace h : Except.ok ([] : List DrawRec) = .ok l := h
      cases h
      exact ⟨[], List.Pairwise.nil, rfl, fun i hi _ => absurd hi (by simp)⟩
    | some gm =>
      rw [hg] at h
      replace h : ilRecs draw_type pick (sortByKey gm) = .ok l := h
      rcases ilRecs_keyOrder h with ⟨ks, hsub, hlen, hcorr⟩
      refine ⟨ks, ?_, hlen, hcorr⟩
      have hsorted : List.Pairwise
          (fun a b : String × SlotMap => strLe a.1 b.1 = true) (sortByKey gm) :=
        sorted_sortByKey gm
      have hmap : List.Pairwise (fun a b => strLe a b = true)
          ((sortByKey gm).map Prod.fst) := by
        rw [List.pairwise_map]
        exact hsorted
      exact List.Pairwise.sublist hsub hmap

theorem load_inv {content : FileState} {data : Store}
    (h : load_il_data content = .ok data) : CleanInv data := by
  cases content with
  | absent => exact clean_inv (show clean_il_data (.jobj []) = .ok data from h)
  | corruptJson => exact clean_inv (show clean_il_data (.jobj []) = .ok data from h)
  | content v => exact clean_inv (show clean_il_data v = .ok data from h)

/-! ### Claim C1 -/

/-- Claim C1 counterexample: with a 404 response on every attempt (as
`fetch_il_draw` invokes it, `max_retries = 3`), `safe_get` consumes 3
attempts, not the single attempt the claim asserts. -/
theorem c1_counterexample :
    (safe_get (fun _ => some (⟨404, ([] : List String)⟩ : Resp (List String)))
      3).attempts = 3 ∧ (3 : Nat) ≠ 1 :=
  ⟨rfl, by decide⟩

/-- Claim C1 (amended): a 404 is retried like any other non-200 status.
When every attempt yields a 404 response, `safe_get` as used by
`fetch_il_draw` consumes the full retry budget — exactly 3 attempts with
2 intervening delays — and `fetch_il_draw` then treats the final 404 as
definitive absence, returning no data without parsing. -/
theorem c1_amended_theorem (oracle : Nat → Option (Resp (List String)))
    (pick : Nat)
    (h : ∀ i, 1 ≤ i → i ≤ 3 → ∃ r, oracle i = some r ∧ r.status = 404) :
    (safe_get oracle 3).attempts = 3 ∧ (safe_get oracle 3).sleeps = 2 ∧
      fetch_il_draw oracle pick = none := by
  have h2 : ∀ i, 1 ≤ i → i ≤ 3 → ∃ r, oracle i = some r ∧ r.status ≠ 200 := by
    intro i hi1 hi2
    obtain ⟨r, hr, hs⟩ := h i hi1 hi2
    exact ⟨r, hr, by rw [hs]; decide⟩
  obtain ⟨r3, h3, hres⟩ := safe_get_three_non200 h2
  obtain ⟨r3b, h3b, hsb⟩ := h 3 (by norm_num) (by norm_num)
  rw [h3] at h3b
  injection h3b with he
  subst he
  refine ⟨by rw [hres], by rw [hres], ?_⟩
  unfold fetch_il_draw
  rw [hres]
  simp [hsb]

/-- Claim C1 amended theorem exercised at a concrete all-404 oracle. -/
theorem c1_amended_witness :
    (safe_get (fun _ => some (⟨404, (["9"] : List String)⟩ : Resp (List String)))
      3).attempts = 3 ∧
    (safe_get (fun _ => some (⟨404, (["9"] : List String)⟩ : Resp (List String)))
      3).sleeps = 2 ∧
    fetch_il_draw (fun _ => some ⟨404, ["9"]⟩) 3 = none :=
  c1_amended_theorem _ 3 (fun _ _ _ => ⟨⟨404, ["9"]⟩, rfl, rfl⟩)

/-! ### Claim C7 -/

/-- Claim C7: when every attempt yields a non-200, non-404 response
(e.g. always 500), `safe_get` performs exactly 3 attempts with exactly 2
intervening delays and returns the last-seen response; and when every
attempt raises a transport error, it performs the same 3 attempts and 2
delays and returns the explicit no-response failure `None`. -/
theorem c7_theorem :
    (∀ (α : Type) (oracle : Nat → Option (Resp α)),
      (∀ i, 1 ≤ i → i ≤ 3 →
        ∃ r, oracle i = some r ∧ r.status ≠ 200 ∧ r.status ≠ 404) →
      ∃ r3, oracle 3 = some r3 ∧ safe_get oracle 3 = ⟨some r3, 3, 2⟩) ∧
    (∀ (α : Type) (oracle : Nat → Option (Resp α)),
      (∀ i, oracle i = none) → safe_get oracle 3 = ⟨none, 3, 2⟩) := by
  constructor
  · intro α oracle h
    apply safe_get_three_non200
    intro i h1 h2
    obtain ⟨r, hr, hs, _⟩ := h i h1 h2
    exact ⟨r, hr, hs⟩
  · intro α oracle h
    exact safe_get_three_fail h

/-- Claim C7 theorem exercised at a concrete always-500 oracle and a
concrete always-failing oracle. -/
theorem c7_witness :
    (∃ r3, (fun _ => some (⟨500, ()⟩ : Resp Unit)) 3 = some r3 ∧
      safe_get (fun _ => some (⟨500, ()⟩ : Resp Unit)) 3 = ⟨some r3, 3, 2⟩) ∧
    safe_get (fun _ => (none : Option (Resp Unit))) 3 = ⟨none, 3, 2⟩ :=
  ⟨c7_theorem.1 Unit _ (fun _ _ _ => ⟨⟨500, ()⟩, rfl, by decide, by decide⟩),
   c7_theorem.2 Unit _ (fun _ => rfl)⟩

/-! ### Claim C9 -/

/-- Claim C9: with the backfill lookback configured as 0 (or any
non-positive value), the controller performs zero fetch calls and
returns the loaded store unchanged, and nothing is written. -/
theorem c9_theorem (content : FileState) (data : Store) (days : Int)
    (window : List String) (oracle : Oracle)
    (hd : days ≤ 0) (hc : load_il_data content = .ok data) :
    update_il_data_to_current content days window oracle =
      .ok ⟨data, 0, 0, none⟩ := by
  unfold update_il_data_to_current
  simp only [hc]
  rw [if_pos hd]

/-- Claim C9 theorem exercised at lookback 0 on a concrete store and a
non-empty window. -/
theorem c9_witness :
    update_il_data_to_current (.content (.jobj [])) 0 ["06-01-2024"]
      (fun _ _ _ => none) = .ok ⟨[], 0, 0, none⟩ :=
  c9_theorem _ _ _ _ _ (by decide) rfl

/-! ### Claim C5 -/

/-- Claim C5: if every `(game, date, slot)` cell of the backfill window
is already filled in the loaded store, a backfill run performs zero
fetch calls (so zero successful fetches) and persists exactly the
loaded store; a second run on the file the first produced — whatever the
upstream then answers — again performs zero fetch calls and persists the
identical file contents. -/
theorem c5_theorem (content : FileState) (data : Store) (days : Int)
    (window : List String) (oracle oracle2 : Oracle)
    (hd : 0 < days) (hc : load_il_data content = .ok data)
    (hf : AllFilled data window) :
    update_il_data_to_current content days window oracle =
      .ok ⟨data, 0, 0, some (storeToJVal data)⟩ ∧
    update_il_data_to_current (.content (storeToJVal data)) days window oracle2 =
      .ok ⟨data, 0, 0, some (storeToJVal data)⟩ := by
  have hinv : CleanInv data := load_inv hc
  have hsave : save_il_data data = storeToJVal data := by
    unfold save_il_data
    rw [cleanStore_eq_self hinv]
  have hrun : ∀ (orc : Oracle) (cnt : FileState), load_il_data cnt = .ok data →
      update_il_data_to_current cnt days window orc =
        .ok ⟨data, 0, 0, some (storeToJVal data)⟩ := by
    intro orc cnt hcnt
    unfold update_il_data_to_current
    simp only [hcnt]
    rw [if_neg (by omega : ¬ days ≤ 0)]
    rw [foldl_processDate_filled hf, hsave]
  refine ⟨hrun oracle content hc, hrun oracle2 _ ?_⟩
  exact clean_storeToJVal_of_inv hinv

/-- Claim C5 theorem exercised on a concrete fully-filled one-day
window, with a second-run upstream that would answer every query. -/
theorem c5_witness :
    update_il_data_to_current (.content (storeToJVal exWindowStore)) 30
      ["06-01-2024"] (fun _ _ _ => none) =
      .ok ⟨exWindowStore, 0, 0, some (storeToJVal exWindowStore)⟩ ∧
    update_il_data_to_current (.content (storeToJVal exWindowStore)) 30
      ["06-01-2024"] (fun _ _ _ => some [9, 9, 9]) =
      .ok ⟨exWindowStore, 0, 0, some (storeToJVal exWindowStore)⟩ :=
  c5_theorem _ exWindowStore 30 _ _ _ (by decide) rfl (by decide)

/-! ### Claim C6 -/

/-- Claim C6: for every input mapping `X` on which the cleaning pass
succeeds, `save_il_data` applied to `clean_il_data X` followed by
`load_il_data` returns exactly `clean_il_data X`. -/
theorem c6_theorem (X : JVal) (st : Store) (h : clean_il_data X = .ok st) :
    load_il_data (.content (save_il_data st)) = .ok st := by
  have hinv := clean_inv h
  show clean_il_data (save_il_data st) = .ok st
  unfold save_il_data
  rw [cleanStore_eq_self hinv]
  exact clean_storeToJVal_of_inv hinv

/-- Claim C6 theorem exercised on a concrete partially-malformed input
(one well-formed slot, one slot whose member is a string). -/
theorem c6_witness :
    load_il_data (.content (save_il_data
      [("pick3", [("01-02-2024", [("midday",
        [PyInt.int 7, PyInt.int 0, PyInt.int 9])])])])) =
    .ok [("pick3", [("01-02-2024", [("midday",
      [PyInt.int 7, PyInt.int 0, PyInt.int 9])])])] :=
  c6_theorem (.jobj [("pick3", .jobj [("01-02-2024", .jobj
    [("midday", .jarr [.jint 7, .jint 0, .jint 9]),
     ("bogus", .jarr [.jstr "x"])])])]) _ rfl

/-! ### Claim C10 -/

/-- Claim C10: a valid-JSON persisted input whose per-game value is a
truthy non-mapping (here `{"pick3": [1]}`) makes the cleaning pass — and
hence `load_il_data` on a file with that content — raise, rather than
dropping the entry or substituting an empty store. -/
theorem c10_theorem :
    clean_il_data (.jobj [("pick3", .jarr [.jint 1])]) = .error () ∧
    load_il_data (.content (.jobj [("pick3", .jarr [.jint 1])])) = .error () :=
  ⟨rfl, rfl⟩

/-! ### Claim C3 -/

/-- Claim C3 counterexample: the game key `"lotto"` contains no `"4"`,
so the claim's rule gives pick-size 3 and predicts that a slot with
exactly 3 integer members is retained — but the code's rule
(`3 if "3" in game else 4`) gives 4 and drops it, leaving the game
empty. -/
theorem c3_counterexample :
    clean_il_data (.jobj [("lotto", .jobj [("06-05-2024", .jobj
      [("midday", .jarr [.jint 1, .jint 2, .jint 3])])])]) =
      .ok [("lotto", [])] ∧
    specPickSize "lotto" = 3 ∧
    (filterInts [.jint 1, .jint 2, .jint 3]).length = specPickSize "lotto" :=
  ⟨rfl, rfl, rfl⟩

/-- Claim C3 (amended): a slot entry is retained iff its value is a
sequence whose integer members number exactly the pick-size implied by
the game key, where the pick-size is 3 if the key's textual form
contains "3" and 4 otherwise (`pickOf`); the retained value is the list
of integer members; dates left with no valid slots are dropped and the
remaining date keys are re-sorted ascending. -/
theorem c3_amended_theorem (games : List (String × JVal)) (st : Store)
    (h : clean_il_data (.jobj games) = .ok st) :
    ∀ g dval, (g, dval) ∈ games → C3GameSpec g dval st := by
  intro g dval hm
  unfold clean_il_data at h
  rw [pyDict_jobj] at h
  rcases cleanGames_mem_fwd h hm with ⟨gm, hgm, hcg⟩
  unfold cleanGame at hcg
  cases hq : pyDict dval with
  | none => rw [hq] at hcg; cases hcg
  | some dl =>
    rw [hq] at hcg
    cases hcg
    refine ⟨dl, _, hq, hgm, sorted_sortByKey _, ?_, ?_⟩
    · intro d sm hdm
      rcases (cleanDates_mem _ _ _ _).1 ((mem_sortByKey _ _).1 hdm) with
        ⟨draws, _, _, hne⟩
      exact hne
    · intro d s v
      constructor
      · rintro ⟨sm, hdm, hsv⟩
        rcases (cleanDates_mem _ _ _ _).1 ((mem_sortByKey _ _).1 hdm) with
          ⟨draws, hdl, hsm, _⟩
        rw [hsm] at hsv
        rcases (cleanSlots_mem _ _ _ _).1 hsv with ⟨ns, hns, hv, hlen⟩
        exact ⟨ns, ⟨draws, hdl, hns⟩, hv, hlen⟩
      · rintro ⟨ns, ⟨draws, hdl, hns⟩, hv, hlen⟩
        have hsv : (s, v) ∈ cleanSlots (pickOf g) draws :=
          (cleanSlots_mem _ _ _ _).2 ⟨ns, hns, hv, hlen⟩
        refine ⟨cleanSlots (pickOf g) draws, ?_, hsv⟩
        apply (mem_sortByKey _ _).2
        apply (cleanDates_mem _ _ _ _).2
        refine ⟨draws, hdl, rfl, ?_⟩
        intro he
        rw [he] at hsv
        simp at hsv

/-- Claim C3 amended theorem exercised on a concrete one-game input. -/
theorem c3_witness :
    C3GameSpec "pick3"
      (.jobj [("01-02-2024", .jobj [("midday", .jarr [.jint 1, .jint 2, .jint 3])])])
      [("pick3", [("01-02-2024", [("midday", [.int 1, .int 2, .int 3])])])] :=
  c3_amended_theorem
    [("pick3", .jobj [("01-02-2024", .jobj
      [("midday", .jarr [.jint 1, .jint 2, .jint 3])])])]
    _ rfl "pick3" _ (by simp)

/-! ### Claim C4 -/

/-- Claim C4 counterexample: a pick-3 slot stored as `[1, 2, 3, "x"]`
contains a non-integer member, yet the cleaning pass retains it as
`[1, 2, 3]` — the entry is repaired, not dropped. -/
theorem c4_counterexample :
    clean_il_data (.jobj [("pick3", .jobj [("06-05-2024", .jobj
      [("midday", .jarr [.jint 1, .jint 2, .jint 3, .jstr "x"])])])]) =
    .ok [("pick3", [("06-05-2024", [("midday", [.int 1, .int 2, .int 3])])])] :=
  rfl

/-- Claim C4 (amended): the cleaning pass first strips the non-integer
members of a list-valued slot; the entry survives — with those members
removed — exactly when the remaining integer members number the
pick-size, and is dropped otherwise (non-list slot values are dropped,
and a date whose value is not a mapping is skipped entirely). -/
theorem c4_amended_theorem :
    (∀ (pick : Nat) (draws : List (String × JVal)) (s : String) (v : List PyInt),
      (s, v) ∈ cleanSlots pick draws ↔
        ∃ ns, (s, JVal.jarr ns) ∈ draws ∧ v = filterInts ns ∧ v.length = pick) ∧
    (∀ (pick : Nat) (dl : List (String × JVal)) (d : String) (sm : SlotMap),
      (d, sm) ∈ cleanDates pick dl ↔
        ∃ draws, (d, JVal.jobj draws) ∈ dl ∧ sm = cleanSlots pick draws ∧ sm ≠ []) :=
  ⟨cleanSlots_mem, cleanDates_mem⟩

/-! ### Claim C2 -/

/-- Claim C2 counterexample: a cached store holding `"12-31-2023"` and
`"01-01-2024"` is assembled in ascending lexical `MM-DD-YYYY` key order,
so the January record precedes the December one and the date sequence
decreases across the year boundary. -/
theorem c2_counterexample :
    fetch_draws_il (.content (.jobj [("pick3", .jobj
      [("01-01-2024", .jobj [("evening", .jarr [.jint 1, .jint 2, .jint 3])]),
       ("12-31-2023", .jobj [("evening", .jarr [.jint 4, .jint 5, .jint 6])])])]))
      0 [] (fun _ _ _ => none) "evening" 3 =
      .ok [⟨20240101, "evening", [.int 1, .int 2, .int 3]⟩,
           ⟨20231231, "evening", [.int 4, .int 5, .int 6]⟩] ∧
    ¬ (20240101 : Nat) ≤ 20231231 :=
  ⟨rfl, by decide⟩

/-- Claim C2 (amended): the year-fetched assembler (`fetch_draws` for a
non-cached region) always returns records in non-decreasing date order,
because it sorts by parsed date; the cached-region assembler
(`fetch_draws_il`) instead emits its records in ascending lexicographic
order of the `MM-DD-YYYY` date keys they are read from — the output is
indexed by a lexicographically sorted key list whose parses give the
records' dates — which coincides with chronological order only within a
single year. -/
theorem c2_amended_theorem :
    (∀ (years : List Nat) (oracle : Nat → Nat → Option (Resp (List Row)))
       (slot : String) (pick : Nat) (l : List DrawRec),
      fetch_draws_year years oracle slot pick = .ok l → List.Sorted DtLE l) ∧
    (∀ (content : FileState) (days : Int) (window : List String)
       (oracle : Oracle) (draw_type : String) (pick : Nat) (l : List DrawRec),
      fetch_draws_il content days window oracle draw_type pick = .ok l →
      ∃ ks : List String, List.Pairwise (fun a b => strLe a b = true) ks ∧
        ks.length = l.length ∧
        ∀ i (hi : i < ks.length) (hi' : i < l.length),
          ∃ dt, parseMDY (ks.get ⟨i, hi⟩) = some dt ∧
            (l.get ⟨i, hi'⟩).dt = encodeDate dt) :=
  ⟨fun _ _ _ _ _ h => (fetch_draws_year_ok h).1,
   fun _ _ _ _ _ _ _ h => fetch_draws_il_key_sorted h⟩

/-- Claim C2 amended theorem exercised on a concrete year page whose
rows arrive in descending date order, and on a concrete cached store
read back by `fetch_draws_il`. -/
theorem c2_witness :
    List.Sorted DtLE
      [⟨20240602, "midday", [PyInt.int 1, PyInt.int 2, PyInt.int 3]⟩,
       ⟨20240608, "midday", [PyInt.int 9, PyInt.int 8, PyInt.int 7]⟩] ∧
    (∃ ks : List String, List.Pairwise (fun a b => strLe a b = true) ks ∧
      ks.length = ([⟨20240305, "evening", [PyInt.int 1, PyInt.int 2, PyInt.int 3]⟩,
        ⟨20241102, "evening", [PyInt.int 4, PyInt.int 5, PyInt.int 6]⟩] :
          List DrawRec).length ∧
      ∀ i (hi : i < ks.length)
        (hi' : i < ([⟨20240305, "evening",
            [PyInt.int 1, PyInt.int 2, PyInt.int 3]⟩,
          ⟨20241102, "evening", [PyInt.int 4, PyInt.int 5, PyInt.int 6]⟩] :
            List DrawRec).length),
        ∃ dt, parseMDY (ks.get ⟨i, hi⟩) = some dt ∧
          (([⟨20240305, "evening", [PyInt.int 1, PyInt.int 2, PyInt.int 3]⟩,
            ⟨20241102, "evening", [PyInt.int 4, PyInt.int 5, PyInt.int 6]⟩] :
              List DrawRec).get ⟨i, hi'⟩).dt = encodeDate dt) :=
  ⟨c2_amended_theorem.1 [2024]
    (fun _ _ => some ⟨200,
      [[["Saturday", "June", "8,", "2024"], ["9", "8", "7"]],
       [["Sunday", "June", "2,", "2024"], ["1", "2", "3"]]]⟩)
    "midday" 3 _ rfl,
   c2_amended_theorem.2
    (.content (.jobj [("pick3", .jobj
      [("03-05-2024", .jobj [("evening", .jarr [.jint 1, .jint 2, .jint 3])]),
       ("11-02-2024", .jobj [("evening", .jarr [.jint 4, .jint 5, .jint 6])])])]))
    0 [] (fun _ _ _ => none) "evening" 3
    [⟨20240305, "evening", [PyInt.int 1, PyInt.int 2, PyInt.int 3]⟩,
     ⟨20241102, "evening", [PyInt.int 4, PyInt.int 5, PyInt.int 6]⟩] rfl⟩

/-! ### Claim C8 -/

/-- Claim C8 counterexample: the cleaning pass retains `[10, 11, 12]`
for a pick-3 game — elements outside `[0, 9]` survive, so the claimed
digit-range invariant does not hold for the store. -/
theorem c8_counterexample :
    clean_il_data (.jobj [("pick3", .jobj [("06-05-2024", .jobj
      [("midday", .jarr [.jint 10, .jint 11, .jint 12])])])]) =
      .ok [("pick3", [("06-05-2024", [("midday",
        [.int 10, .int 11, .int 12])])])] ∧
    ¬ ((10 : Int) ≤ 9) :=
  ⟨rfl, by decide⟩

/-- Claim C8 (amended): every digit sequence retained after a cleaning
pass has length exactly the pick-size implied by its game key, and every
sequence produced by either parser has length exactly the requested
pick-size with every element a non-negative integer parsed from a digit
token; membership of the elements in `[0, 9]` is not enforced
anywhere. -/
theorem c8_amended_theorem :
    (∀ (data : JVal) (st : Store) (g : String) (gm : DateMap) (d : String)
       (sm : SlotMap) (s : String) (v : List PyInt),
      clean_il_data data = .ok st → (g, gm) ∈ st → (d, sm) ∈ gm →
        (s, v) ∈ sm → v.length = pickOf g) ∧
    (∀ (oracle : Nat → Option (Resp (List String))) (pick : Nat) (ns : List Nat),
      fetch_il_draw oracle pick = some ns → ns.length = pick) ∧
    (∀ (years : List Nat) (oracle : Nat → Nat → Option (Resp (List Row)))
       (slot : String) (pick : Nat) (l : List DrawRec) (rec : DrawRec),
      fetch_draws_year years oracle slot pick = .ok l → rec ∈ l →
        RecOK pick rec) := by
  refine ⟨?_, ?_, ?_⟩
  · intro data st g gm d sm s v h h1 h2 h3
    exact ((clean_inv h g gm h1).2 d sm h2).2 s v h3
  · intro oracle pick ns h
    exact fetch_il_draw_some h
  · intro years oracle slot pick l rec h hm
    exact (fetch_draws_year_ok h).2 rec hm

/-- Claim C8 amended theorem exercised on a concrete cleaned store, a
concrete day-fragment parse, and a concrete year-table parse. -/
theorem c8_witness :
    ([PyInt.int 1, PyInt.int 2, PyInt.int 3] : List PyInt).length =
      pickOf "pick3" ∧
    ([1, 2, 3] : List Nat).length = 3 ∧
    RecOK 3 ⟨20180704, "evening", [PyInt.int 7, PyInt.int 8, PyInt.int 9]⟩ :=
  ⟨c8_amended_theorem.1
      (.jobj [("pick3", .jobj [("06-07-2024", .jobj
        [("midday", .jarr [.jint 1, .jint 2, .jint 3])])])])
      [("pick3", [("06-07-2024", [("midday",
        [PyInt.int 1, PyInt.int 2, PyInt.int 3])])])]
      "pick3" [("06-07-2024", [("midday",
        [PyInt.int 1, PyInt.int 2, PyInt.int 3])])]
      "06-07-2024" [("midday", [PyInt.int 1, PyInt.int 2, PyInt.int 3])]
      "midday" [PyInt.int 1, PyInt.int 2, PyInt.int 3]
      rfl (by simp) (by simp) (by simp),
   c8_amended_theorem.2.1 (fun _ => some ⟨200, ["7", "1", "3"]⟩) 3 [7, 1, 3] rfl,
   c8_amended_theorem.2.2 [2018]
     (fun _ _ => some ⟨200, [[["Wed", "July", "4,", "2018"],
       ["7", "8", "9", "5"]]]⟩)
     "evening" 3
     [⟨20180704, "evening", [PyInt.int 7, PyInt.int 8, PyInt.int 9]⟩]
     _ rfl (by decide)⟩

end Lotto
